import Mathlib

/-!
Verification of the trash-rs core library (src/lib.rs and src/bin/restore.rs)
against its natural-language specification.

Rust strings are modelled as `List Char` wherever the code inspects their
content (splitting, trimming, prefix tests), and as Lean `String` where they
are only concatenated and compared (filesystem paths).  Filesystem state and
third-party library calls (stat, rename, percent-encoding) are abstracted as
explicit function parameters; fallible Rust code returning a boxed error
becomes `Except String T`, and code that can panic becomes `Option`-valued
with `none` marking the panic.
-/

/-! ## Decimal digit rendering (Rust formatting of integers) -/

/-- A single decimal digit character; inputs are always at most 9. -/
def digitChar (d : Nat) : Char :=
  match d with
  | 0 => '0' | 1 => '1' | 2 => '2' | 3 => '3' | 4 => '4'
  | 5 => '5' | 6 => '6' | 7 => '7' | 8 => '8' | 9 => '9'
  | _ => '*'

/-- Fuel-based decimal rendering helper, so that it is structurally
recursive and kernel-reducible. -/
def natCharsAux (fuel : Nat) (n : Nat) : List Char :=
  match fuel with
  | 0 => []
  | fuel + 1 =>
    if n < 10 then [digitChar n]
    else natCharsAux fuel (n / 10) ++ [digitChar (n % 10)]

/-- Decimal rendering of a natural number, as Rust formatting produces it. -/
def natChars (n : Nat) : List Char := natCharsAux (n + 1) n

/-- Zero-padding to width 2, as Rust 02-width formatting of a non-negative
number produces it. -/
def pad2 (n : Nat) : List Char :=
  List.replicate (2 - (natChars n).length) '0' ++ natChars n

/-- Zero-padding to width 4 (chrono renders years with 4 digits). -/
def pad4 (n : Nat) : List Char :=
  List.replicate (4 - (natChars n).length) '0' ++ natChars n

/-- Rust 02-width formatting of a signed integer: the sign is followed by
the digits, zero-padded between sign and digits up to total width 2 (so a
negative one-digit value renders as a sign plus one digit). -/
def fmt2i (n : Int) : List Char :=
  if n < 0 then '-' :: natChars n.natAbs else pad2 n.toNat

/-! ## Character-list models of Rust string primitives -/

/-- ASCII whitespace test (the characters relevant to the inputs here). -/
def isWs (c : Char) : Bool := c == ' ' || c == '\t' || c == '\n' || c == '\r'

/-- Split at every character satisfying the predicate, keeping empty pieces,
as Rust str split with a one-character pattern does. -/
def splitPred (p : Char → Bool) : List Char → List (List Char)
  | [] => [[]]
  | c :: rest =>
    if p c then [] :: splitPred p rest
    else
      match splitPred p rest with
      | [] => [[c]]
      | h :: t => (c :: h) :: t

/-- Rust str split on a newline character. -/
def splitNl (l : List Char) : List (List Char) := splitPred (fun c => c == '\n') l

/-- Rust str lines: like split on newline, but a trailing final newline does
not produce an extra empty line.  (The carriage-return handling of Rust
lines is not modelled; the inputs considered are Linux trash files.) -/
def linesOf (l : List Char) : List (List Char) :=
  let ls := splitNl l
  if ls.getLast? = some [] then ls.dropLast else ls

/-- Rust str split_whitespace: maximal runs of non-whitespace characters. -/
def splitWs (l : List Char) : List (List Char) :=
  (splitPred isWs l).filter (fun e => !e.isEmpty)

/-- Rust str trim restricted to ASCII whitespace. -/
def trimChars (l : List Char) : List Char :=
  (((l.dropWhile isWs).reverse).dropWhile isWs).reverse

/-- Rust str find of a one-character pattern followed by truncation there
(replace_range of the tail by the empty string); when the character does not
occur the string is unchanged. -/
def truncAtChar (l : List Char) (c : Char) : List Char :=
  l.takeWhile (fun x => x ≠ c)

/-! ## C2 — collision-suffix file naming (get_trashable_file_name) -/

/-- Faithful translation of TrashDirectory::get_trashable_file_name
(src/lib.rs:485-499).  Rust splitn with limit 2 and a dot pattern splits at
the first dot: the first component is everything before it, the second
everything after. -/
def getTrashableFileName (strippedFileName : List Char) (idx : Nat) : List Char :=
  if idx < 2 then strippedFileName
  else if strippedFileName.contains '.' then
    let before := strippedFileName.takeWhile (fun c => c ≠ '.')
    let after := (strippedFileName.dropWhile (fun c => c ≠ '.')).tail
    before ++ '.' :: natChars idx ++ '.' :: after
  else strippedFileName ++ '.' :: natChars idx

/-- String-typed wrapper used when building candidate paths. -/
def getTrashableFileNameStr (strippedFileName : String) (idx : Nat) : String :=
  ⟨getTrashableFileName strippedFileName.data idx⟩

/-! ## C3 — trash entry name generation (generate_trash_entry_names) -/

/-- Rust u32::MAX; the generation loop in src/lib.rs:169 iterates the
half-open range from 1 to this bound. -/
def u32Max : Nat := 4294967295

/-- The search loop of generate_trash_entry_names: starting at index n with
the given number of remaining iterations, return the first index whose
candidate names are both fresh, or none when the iterations are exhausted. -/
def findFreshLoop (occupied : Nat → Bool) (n : Nat) (fuel : Nat) : Option Nat :=
  match fuel with
  | 0 => none
  | fuel + 1 =>
    if occupied n then findFreshLoop occupied (n + 1) fuel else some n

/-- Candidate path in the files directory for index n (src/lib.rs:172). -/
def candFilePath (filesDir name : String) (n : Nat) : String :=
  filesDir ++ "/" ++ getTrashableFileNameStr name n

/-- Candidate trashinfo path for index n (src/lib.rs:173-176). -/
def candInfoPath (infoDir name : String) (n : Nat) : String :=
  infoDir ++ "/" ++ getTrashableFileNameStr name n ++ ".trashinfo"

/-- A candidate index is occupied when its files-dir path or its info-dir
trashinfo path exists (negation of the freshness test in src/lib.rs:179). -/
def candOccupied (exists_ : String → Bool) (filesDir infoDir name : String) (n : Nat) : Bool :=
  exists_ (candFilePath filesDir name n) || exists_ (candInfoPath infoDir name n)

/-- Faithful translation of TrashDirectory::generate_trash_entry_names
(src/lib.rs:153-207), abstracted over the path-existence observation and
returning the chosen index and both chosen paths. -/
def generateTrashEntryNames (exists_ : String → Bool) (filesDir infoDir name : String) :
    Except String (Nat × String × String) :=
  match findFreshLoop (candOccupied exists_ filesDir infoDir name) 1 (u32Max - 1) with
  | some n => .ok (n, candFilePath filesDir name n, candInfoPath infoDir name n)
  | none => .error "reached maximum trash file name iteration"

/-! ## C1 — trash root resolution and the admin-to-user fallback -/

/-- The abstract filesystem observations used by trash-root resolution. -/
structure FS where
  tryExists : String → Option Bool
  isWritableDir : String → Bool
  stMode : String → Except String Nat
  isSymlink : String → Bool
  mustHaveDir : String → Except String Unit

/-- The sticky permission bit, octal 1000. -/
def S_ISVTX : Nat := 512

inductive TrashRootType where
  | Home
  | TopDirAdmin
  | TopDirUser
deriving DecidableEq, Repr

structure TrashDirectory where
  home : String
  files : String
  info : String
  rootType : TrashRootType
deriving DecidableEq, Repr

/-- Faithful translation of TrashDirectory::try_topdir_admin_trash_for
(src/lib.rs:508-577). -/
def tryTopdirAdminTrashFor (fs : FS) (topDir : String) (euid : Nat)
    (createIfNotExist : Bool) : Except String String :=
  let adminTrash := topDir ++ "/.Trash"
  match fs.tryExists adminTrash with
  | some true =>
    if !fs.isWritableDir adminTrash then
      .error "top directory trash is not writable"
    else
      match fs.stMode adminTrash with
      | .error e => .error e
      | .ok mode =>
        let stickyBitSet := mode &&& S_ISVTX == S_ISVTX
        if stickyBitSet && !fs.isSymlink adminTrash then
          let userTrashHome := adminTrash ++ "/" ++ toString euid
          match
            (if createIfNotExist then fs.mustHaveDir userTrashHome
             else if !((fs.tryExists userTrashHome).getD false) then
               .error "user directory in top directory trash is not writable"
             else .ok ()) with
          | .error e => .error e
          | .ok _ =>
            if !fs.isWritableDir userTrashHome then
              .error "user directory in top directory trash is not writable"
            else .ok userTrashHome
        else .error "top directory trash is a symlink or sticky bit not set"
  | _ => .error "top directory trash does not exist"

/-- Faithful translation of TrashDirectory::try_topdir_user_trash_for
(src/lib.rs:586-618). -/
def tryTopdirUserTrashFor (fs : FS) (topDir : String) (euid : Nat)
    (createIfNotExist : Bool) : Except String String :=
  let userTrashHome := topDir ++ "/.Trash-" ++ toString euid
  match
    (if createIfNotExist then fs.mustHaveDir userTrashHome
     else if !((fs.tryExists userTrashHome).getD false) then
       .error "user directory in top directory trash is not writable"
     else .ok ()) with
  | .error e => .error e
  | .ok _ =>
    if !fs.isWritableDir userTrashHome then
      .error "user directory in top directory trash is not writable"
    else .ok userTrashHome

/-- The tail of resolve_for_file (src/lib.rs:138-150): ensure the files and
info subdirectories exist and build the TrashDirectory value. -/
def resolveTail (fs : FS) (trashHome : String) (rt : TrashRootType) :
    Except String TrashDirectory :=
  match fs.mustHaveDir (trashHome ++ "/files") with
  | .error e => .error e
  | .ok _ =>
    match fs.mustHaveDir (trashHome ++ "/info") with
    | .error e => .error e
    | .ok _ => .ok ⟨trashHome, trashHome ++ "/files", trashHome ++ "/info", rt⟩

/-- The external-mount branch of TrashDirectory::resolve_for_file
(src/lib.rs:97-151): the admin top-directory trash is attempted first and on
any failure the per-user top-directory trash is attempted, then the files
and info subdirectories are ensured. -/
def resolveForFileExternal (fs : FS) (topDir : String) (euid : Nat) :
    Except String TrashDirectory :=
  match tryTopdirAdminTrashFor fs topDir euid true with
  | .ok v => resolveTail fs v .TopDirAdmin
  | .error _ =>
    match tryTopdirUserTrashFor fs topDir euid true with
    | .error e => .error e
    | .ok v => resolveTail fs v .TopDirUser

/-! ## C4, C8 — the trashinfo record -/

structure TrashInfo where
  originalPath : String
  deletionDate : String
  path : String
deriving DecidableEq, Repr

/-- The exact file content written by TrashInfo::create_file
(src/lib.rs:684-690). -/
def trashinfoContent (ti : TrashInfo) : String :=
  "[Trash Info]\nPath=" ++ ti.originalPath ++ "\nDeletionDate=" ++ ti.deletionDate ++ "\n"

/-- Faithful translation of TrashInfo::create_file (src/lib.rs:679-715).
The filesystem is a map from path to optional content.  The existence check
observes the state fsCheck; the exclusive-create open observes the possibly
later state fsOpen, modelling another process creating the path in between.
The returned map is the state after the call: unchanged on error, updated at
the record's backing path on success. -/
def createTrashinfoFile (ti : TrashInfo) (fsCheck fsOpen : String → Option String) :
    Except String Unit × (String → Option String) :=
  if (fsCheck ti.path).isSome then (.error "info entry already exists", fsOpen)
  else
    match fsOpen ti.path with
    | some _ => (.error "error while creating trashinfo entry", fsOpen)
    | none => (.ok (), fun p => if p = ti.path then some (trashinfoContent ti) else fsOpen p)

/-- The naive local date-and-time rendering, digits and fixed separators
(modelled from the chrono to_rfc3339_opts output before the offset
suffix). -/
def renderNaive (y mo d h mi s : Nat) : List Char :=
  pad4 y ++ '-' :: pad2 mo ++ '-' :: pad2 d ++ 'T' :: pad2 h ++
    ':' :: pad2 mi ++ ':' :: pad2 s

/-- The offset suffix of the chrono rendering with use_z set: Z for offset
zero, otherwise a sign followed by zero-padded hours and minutes. -/
def renderOffsetZ (offMinutes : Int) : List Char :=
  if offMinutes = 0 then ['Z']
  else
    (if offMinutes < 0 then '-' else '+') ::
      (pad2 (offMinutes.natAbs / 60) ++ ':' :: pad2 (offMinutes.natAbs % 60))

/-- The full chrono RFC 3339 seconds-precision rendering of a local
datetime whose local offset is the given whole number of minutes. -/
def rfc3339Render (y mo d h mi s : Nat) (offMinutes : Int) : List Char :=
  renderNaive y mo d h mi s ++ renderOffsetZ offMinutes

/-- The offset-stripping loop of TrashInfo::new and get_deletion_date
(src/lib.rs:640-645 and 721-726): truncate at the first plus sign, then at
the first lowercase z, then at the first uppercase Z. -/
def stripTzChars (l : List Char) : List Char :=
  truncAtChar (truncAtChar (truncAtChar l '+') 'z') 'Z'

/-- Faithful translation of TrashInfo::new (src/lib.rs:629-652), abstracted
over the percent-encoding function and over the chrono rendering of the
deletion time (passed as the already-rendered character list). -/
def trashInfoNew (enc : String → String) (originalPath : String)
    (rendered : List Char) (tiPath : String) : TrashInfo :=
  { originalPath := enc originalPath
    deletionDate := ⟨stripTzChars rendered⟩
    path := tiPath }

/-! ## C5 — trashinfo parsing (TrashInfo::from) -/

/-- Faithful translation of the parsing part of TrashInfo::from
(src/lib.rs:654-673) on the file content, returning none where the Rust
code panics (an out-of-bounds line index) and the parsed Path and
DeletionDate payloads otherwise.  Rust split on a newline keeps empty
pieces, so the line list is never empty. -/
def trashinfoFromContent (content : List Char) :
    Option (Except String (List Char × List Char)) :=
  match splitNl content with
  | [] => none
  | l0 :: rest =>
    if trimChars l0 ≠ "[Trash Info]".data then some (.error "not a valid trashinfo entry")
    else
      match rest with
      | [] => none
      | l1 :: rest2 =>
        if !(List.isPrefixOf "Path=".data l1) then some (.error "not a valid trashinfo entry")
        else
          match rest2 with
          | [] => none
          | l2 :: _ =>
            if !(List.isPrefixOf "DeletionDate=".data l2) then
              some (.error "not a valid trashinfo entry")
            else some (.ok (l1.drop 5, l2.drop 13))

/-! ## C6 — rewriting the directorysizes index (add_dirsizes_entry) -/

/-- The per-line keep test of the rewrite loop in add_dirsizes_entry
(src/lib.rs:314-340): exactly three whitespace-separated fields, a
percent-decodable third field, a decoded name different from the entry
being added, and a still-existing files-dir entry.  The percent decoder and
the path existence check are abstract parameters. -/
def dirsizesKeep (dec : List Char → Option (List Char)) (exists_ : String → Bool)
    (filesDir : String) (newName : List Char) (entry : List Char) : Bool :=
  match splitWs entry with
  | [_, _, f2] =>
    match dec f2 with
    | none => false
    | some f => if newName == f then false else exists_ (filesDir ++ "/" ++ ⟨f⟩)
  | _ => false

/-- The appended line for the new entry (src/lib.rs:348). -/
def dirsizesNewLine (size mtime : Nat) (encodedDirName : List Char) : List Char :=
  natChars size ++ ' ' :: (natChars mtime ++ ' ' :: (encodedDirName ++ ['\n']))

/-- The content written by add_dirsizes_entry (src/lib.rs:308-348): the kept
existing lines accumulated in order, followed by the new entry line. -/
def addDirsizesContent (dec : List Char → Option (List Char)) (exists_ : String → Bool)
    (filesDir : String) (newName : List Char) (size mtime : Nat)
    (encodedDirName : List Char) (existing : List Char) : List Char :=
  let kept := (linesOf existing).foldl
    (fun acc entry =>
      if dirsizesKeep dec exists_ filesDir newName entry then acc ++ (entry ++ ['\n'])
      else acc) []
  kept ++ dirsizesNewLine size mtime encodedDirName

/-- The keep test as the specification states it: a well-formed line (three
whitespace-separated fields, third field percent-decodable) whose decoded
name differs from the entry being added and still exists under the files
directory. -/
def dirsizesKeepSpec (dec : List Char → Option (List Char)) (exists_ : String → Bool)
    (filesDir : String) (newName : List Char) (entry : List Char) : Bool :=
  ((splitWs entry).length == 3) &&
    ((dec ((splitWs entry).getD 2 [])).elim false
      (fun f => (!(f == newName)) && exists_ (filesDir ++ "/" ++ ⟨f⟩)))

/-! ## C7 — the two lifecycle operations and index-update failures -/

/-- Faithful translation of TrashFile::trash (src/lib.rs:798-813),
abstracted over the rename outcome and the directorysizes update outcome.
The let binding mirrors the Rust code discarding the update result. -/
def trashOp (filesEntry : Option String) (trashinfo : Option TrashInfo)
    (renameRes : Except String Unit) (isDir : Bool)
    (addDirsizesRes : Except String Unit) : Except String String :=
  match filesEntry, trashinfo with
  | some fe, some _ =>
    match renameRes with
    | .error e => .error e
    | .ok _ =>
      let _ := if isDir then addDirsizesRes else .ok ()
      .ok fe
  | _, _ => .error "trash entries are uninitialised"

/-- Faithful translation of TrashFile::delete_forever (src/lib.rs:835-857),
abstracted over the outcomes of the removal calls and the directorysizes
cleanup. -/
def deleteForeverOp (filesEntry : Option String) (trashinfo : Option TrashInfo)
    (removeEntryRes removeInfoRes : Except String Unit) (isDir : Bool)
    (cleanupRes : Except String Unit) : Except String Unit :=
  match filesEntry, trashinfo with
  | some _, some _ =>
    match removeEntryRes with
    | .error e => .error e
    | .ok _ =>
      match removeInfoRes with
      | .error e => .error e
      | .ok _ => if isDir then cleanupRes else .ok ()
  | _, _ => .error "trash entries are uninitialised"

/-! ## C10 — reading back the deletion date (get_deletion_date) -/

/-- Numeric value of a digit character. -/
def dval (c : Char) : Nat := c.toNat - 48

/-- ASCII digit test. -/
def isDig (c : Char) : Bool := decide (48 ≤ c.toNat) && decide (c.toNat ≤ 57)

def isLeapYear (y : Nat) : Bool :=
  (y % 4 == 0) && (y % 100 != 0 || y % 400 == 0)

def daysInMonth (y mo : Nat) : Nat :=
  if mo = 2 then (if isLeapYear y then 29 else 28)
  else if mo = 4 ∨ mo = 6 ∨ mo = 9 ∨ mo = 11 then 30
  else 31

/-- Validity of a full RFC 3339 seconds-precision datetime with a numeric
offset, as the chrono parse invoked by get_deletion_date accepts it:
exactly 25 characters, digits and fixed separators, a sign, calendar-valid
fields, and an offset below one day. -/
def validRfc3339 (l : List Char) : Bool :=
  match l with
  | [y1, y2, y3, y4, sepa, m1, m2, sepb, d1, d2, tsep, h1, h2, sepc,
     n1, n2, sepd, x1, x2, sg, o1, o2, sepe, p1, p2] =>
    isDig y1 && isDig y2 && isDig y3 && isDig y4 && (sepa == '-') &&
    isDig m1 && isDig m2 && (sepb == '-') && isDig d1 && isDig d2 &&
    (tsep == 'T') && isDig h1 && isDig h2 && (sepc == ':') &&
    isDig n1 && isDig n2 && (sepd == ':') && isDig x1 && isDig x2 &&
    (sg == '+' || sg == '-') && isDig o1 && isDig o2 && (sepe == ':') &&
    isDig p1 && isDig p2 &&
    decide (1 ≤ 10 * dval m1 + dval m2) && decide (10 * dval m1 + dval m2 ≤ 12) &&
    decide (1 ≤ 10 * dval d1 + dval d2) &&
    decide (10 * dval d1 + dval d2 ≤
      daysInMonth (1000 * dval y1 + 100 * dval y2 + 10 * dval y3 + dval y4)
        (10 * dval m1 + dval m2)) &&
    decide (10 * dval h1 + dval h2 ≤ 23) && decide (10 * dval n1 + dval n2 ≤ 59) &&
    decide (10 * dval x1 + dval x2 ≤ 59) && decide (10 * dval p1 + dval p2 ≤ 59) &&
    decide ((10 * dval o1 + dval o2) * 3600 + (10 * dval p1 + dval p2) * 60 < 86400)
  | _ => false

/-- The string built by TrashInfo::get_deletion_date (src/lib.rs:717-736):
the stored date stripped of any offset characters, then a plus sign, the
02-width hour difference and the 02-width minute remainder of the machine's
current local offset (Rust integer division and remainder truncate toward
zero, which Int.tdiv and Int.tmod mirror). -/
def getDeletionDateStr (stored : List Char) (offsetSecs : Int) : List Char :=
  stripTzChars stored ++
    '+' :: (fmt2i (Int.tdiv (Int.tdiv offsetSecs 60) 60) ++
      ':' :: fmt2i (Int.tmod (Int.tdiv offsetSecs 60) 60))

/-- TrashInfo::get_deletion_date including the final parse and unwrap:
none models the panic of unwrap on a failed parse. -/
def getDeletionDate (stored : List Char) (offsetSecs : Int) : Option (List Char) :=
  if validRfc3339 (getDeletionDateStr stored offsetSecs) then
    some (getDeletionDateStr stored offsetSecs)
  else none

/-! ## C9 — the deletion-date sort comparator (restore.rs sort_file_list) -/

/-- The fields of a listed trash item the date comparator reads. -/
structure RItem where
  deletionDate : String
  isDir : Bool

/-- Faithful translation of the SortType::DeletionDate arm of
sort_file_list (src/bin/restore.rs:1512-1529): descending date comparison,
and on equal dates the first argument alone decides the ordering. -/
def cmpDeletionDate (a b : RItem) : Ordering :=
  let cmpDate := compare b.deletionDate a.deletionDate
  match cmpDate with
  | .eq => if a.isDir then .gt else .lt
  | other => other

/-! # Theorems -/

theorem natCharsAux_congr :
    ∀ f1 f2 n, n < f1 → n < f2 → natCharsAux f1 n = natCharsAux f2 n := by
  intro f1
  induction f1 with
  | zero => intro f2 n h1 _; omega
  | succ f1 ih =>
    intro f2 n h1 h2
    match f2, h2 with
    | f2 + 1, h2 =>
      show natCharsAux (f1 + 1) n = natCharsAux (f2 + 1) n
      unfold natCharsAux
      by_cases hn : n < 10
      · simp [hn]
      · simp only [hn, if_false]
        have hpos : 0 < n := by omega
        have hlt : n / 10 < n := Nat.div_lt_self hpos (by omega)
        rw [ih f2 (n / 10) (by omega) (by omega)]

theorem natChars_lt_ten {n : Nat} (h : n < 10) : natChars n = [digitChar n] := by
  unfold natChars natCharsAux
  simp [h]

theorem natChars_ge_ten {n : Nat} (h : 10 ≤ n) :
    natChars n = natChars (n / 10) ++ [digitChar (n % 10)] := by
  have hpos : 0 < n := by omega
  have hlt : n / 10 < n := Nat.div_lt_self hpos (by omega)
  show natCharsAux (n + 1) n = _
  unfold natCharsAux
  simp only [Nat.not_lt.2 h, if_false]
  rw [natCharsAux_congr n (n / 10 + 1) (n / 10) (by omega) (by omega)]
  rfl

theorem firstDot_decomp (s : List Char) (h : s.contains '.' = true) :
    s = s.takeWhile (fun c => c ≠ '.') ++ '.' :: (s.dropWhile (fun c => c ≠ '.')).tail ∧
      '.' ∉ s.takeWhile (fun c => c ≠ '.') := by
  induction s with
  | nil => simp at h
  | cons c t ih =>
    by_cases hc : c = '.'
    · subst hc
      refine ⟨?_, by simp⟩
      simp [List.takeWhile_cons, List.dropWhile_cons]
    · have hbc : ('.' == c) = false := beq_eq_false_iff_ne.mpr (Ne.symm hc)
      have ht : t.contains '.' = true := by
        simp only [List.contains_cons, hbc, Bool.false_or] at h
        exact h
      obtain ⟨hdec, hmem⟩ := ih ht
      constructor
      · simp only [List.takeWhile_cons, List.dropWhile_cons]
        have hpc : (decide (c ≠ '.')) = true := by simp [hc]
        simp only [hpc, if_true, List.cons_append]
        exact congrArg (c :: ·) hdec
      · intro hm
        simp only [List.takeWhile_cons] at hm
        have hpc : (decide (c ≠ '.')) = true := by simp [hc]
        rw [hpc] at hm
        simp only [if_true, List.mem_cons] at hm
        rcases hm with hm | hm
        · exact hc hm.symm
        · exact hmem hm

/-- C2: for index 1 the candidate name is the filename itself; for an index
of at least 2 the candidate inserts a dot and the index immediately before
the first dot when the name contains one (splitting on the first dot only),
and appends a dot and the index when it does not. -/
theorem getTrashableFileName_spec (s : List Char) (n : Nat) (hn : 1 ≤ n) :
    (n = 1 → getTrashableFileName s n = s) ∧
    (2 ≤ n → s.contains '.' = true →
      ∃ b a, s = b ++ '.' :: a ∧ '.' ∉ b ∧
        getTrashableFileName s n = b ++ '.' :: natChars n ++ '.' :: a) ∧
    (2 ≤ n → s.contains '.' = false →
      getTrashableFileName s n = s ++ '.' :: natChars n) := by
  refine ⟨?_, ?_, ?_⟩
  · intro h1
    subst h1
    simp [getTrashableFileName]
  · intro h2 hdot
    obtain ⟨hdec, hmem⟩ := firstDot_decomp s hdot
    refine ⟨s.takeWhile (fun c => c ≠ '.'), (s.dropWhile (fun c => c ≠ '.')).tail,
      hdec, hmem, ?_⟩
    unfold getTrashableFileName
    have hlt : ¬ n < 2 := by omega
    rw [if_neg hlt, if_pos hdot]
  · intro h2 hdot
    unfold getTrashableFileName
    have hlt : ¬ n < 2 := by omega
    rw [if_neg hlt, if_neg (by rw [hdot]; exact Bool.false_ne_true)]

theorem getTrashableFileName_spec_witness :
    1 ≤ 2 ∧
    ((2 = 1 → getTrashableFileName "archive.tar.gz".data 2 = "archive.tar.gz".data) ∧
     (2 ≤ 2 → ("archive.tar.gz".data).contains '.' = true →
       ∃ b a, "archive.tar.gz".data = b ++ '.' :: a ∧ '.' ∉ b ∧
         getTrashableFileName "archive.tar.gz".data 2 = b ++ '.' :: natChars 2 ++ '.' :: a) ∧
     (2 ≤ 2 → ("archive.tar.gz".data).contains '.' = false →
       getTrashableFileName "archive.tar.gz".data 2 = "archive.tar.gz".data ++ '.' :: natChars 2)) :=
  ⟨by decide, getTrashableFileName_spec "archive.tar.gz".data 2 (by decide)⟩

theorem findFreshLoop_some (occ : Nat → Bool) :
    ∀ fuel start n, findFreshLoop occ start fuel = some n →
      occ n = false ∧ start ≤ n ∧ ∀ m, start ≤ m → m < n → occ m = true := by
  intro fuel
  induction fuel with
  | zero => intro start n h; simp [findFreshLoop] at h
  | succ fuel ih =>
    intro start n h
    unfold findFreshLoop at h
    by_cases ho : occ start = true
    · rw [if_pos ho] at h
      obtain ⟨h1, h2, h3⟩ := ih (start + 1) n h
      refine ⟨h1, by omega, fun m hm1 hm2 => ?_⟩
      rcases Nat.eq_or_lt_of_le hm1 with he | hl
      · rw [← he]; exact ho
      · exact h3 m hl hm2
    · rw [if_neg ho] at h
      have hn : n = start := by
        injection h with h
        exact h.symm
      subst hn
      exact ⟨Bool.not_eq_true _ ▸ Bool.of_not_eq_true ho, Nat.le_refl _,
        fun m hm1 hm2 => by omega⟩

theorem findFreshLoop_none (occ : Nat → Bool) :
    ∀ fuel start, (∀ m, start ≤ m → m < start + fuel → occ m = true) →
      findFreshLoop occ start fuel = none := by
  intro fuel
  induction fuel with
  | zero => intro start _; rfl
  | succ fuel ih =>
    intro start h
    unfold findFreshLoop
    rw [if_pos (h start (Nat.le_refl _) (by omega))]
    exact ih (start + 1) (fun m hm1 hm2 => h m (by omega) (by omega))

/-- C3: trash-entry name generation returns the candidate at the smallest
index of at least 1 whose files-dir path and info-dir trashinfo path are
both fresh (either existing alone blocks the index), and when every index
in the 32-bit search space is occupied it returns an error instead of
looping or reusing a name. -/
theorem generateTrashEntryNames_spec (exists_ : String → Bool)
    (filesDir infoDir name : String) :
    (∀ n fp ip, generateTrashEntryNames exists_ filesDir infoDir name = .ok (n, fp, ip) →
      1 ≤ n ∧ candOccupied exists_ filesDir infoDir name n = false ∧
        fp = candFilePath filesDir name n ∧ ip = candInfoPath infoDir name n ∧
        (∀ m, 1 ≤ m → m < n → candOccupied exists_ filesDir infoDir name m = true)) ∧
    ((∀ m, 1 ≤ m → m < u32Max → candOccupied exists_ filesDir infoDir name m = true) →
      ∃ e, generateTrashEntryNames exists_ filesDir infoDir name = .error e) := by
  constructor
  · intro n fp ip h
    unfold generateTrashEntryNames at h
    cases hfl : findFreshLoop (candOccupied exists_ filesDir infoDir name) 1 (u32Max - 1) with
    | none => rw [hfl] at h; exact absurd h (by simp)
    | some k =>
      rw [hfl] at h
      obtain ⟨h1, h2, h3⟩ := findFreshLoop_some _ _ _ _ hfl
      injection h with h
      obtain ⟨hnk, hfp, hip⟩ : k = n ∧ candFilePath filesDir name k = fp ∧
          candInfoPath infoDir name k = ip := by
        simpa [Prod.ext_iff] using h
      subst hnk
      exact ⟨h2, h1, hfp.symm, hip.symm, h3⟩
  · intro hall
    unfold generateTrashEntryNames
    have hrange : ∀ m, 1 ≤ m → m < 1 + (u32Max - 1) → candOccupied exists_ filesDir infoDir name m = true := by
      intro m hm1 hm2
      refine hall m hm1 ?_
      have : (0 : Nat) < u32Max := by unfold u32Max; omega
      omega
    rw [findFreshLoop_none _ _ _ hrange]
    exact ⟨_, rfl⟩

theorem generateTrashEntryNames_spec_witness :
    generateTrashEntryNames (fun _ => false) "/T/files" "/T/info" "a" =
      .ok (1, "/T/files/a", "/T/info/a.trashinfo") ∧
    (1 ≤ 1 ∧ candOccupied (fun _ => false) "/T/files" "/T/info" "a" 1 = false ∧
      "/T/files/a" = candFilePath "/T/files" "a" 1 ∧
      "/T/info/a.trashinfo" = candInfoPath "/T/info" "a" 1 ∧
      (∀ m, 1 ≤ m → m < 1 → candOccupied (fun _ => false) "/T/files" "/T/info" "a" m = true)) ∧
    (∃ e, generateTrashEntryNames (fun _ => true) "/T/files" "/T/info" "a" = .error e) := by
  have h1 : generateTrashEntryNames (fun _ => false) "/T/files" "/T/info" "a" =
      .ok (1, "/T/files/a", "/T/info/a.trashinfo") := by rfl
  refine ⟨h1,
    (generateTrashEntryNames_spec (fun _ => false) "/T/files" "/T/info" "a").1 1 _ _ h1,
    (generateTrashEntryNames_spec (fun _ => true) "/T/files" "/T/info" "a").2
      (fun m hm1 hm2 => rfl)⟩

/-- C1: when the admin top-directory trash attempt fails, resolution for a
file on an external device is exactly what the per-user top-directory
branch produces — the admin failure is never propagated, a successful
resolution has kind TopDirUser, and an error can only arise from the user
fallback itself. -/
theorem resolveForFileExternal_fallback (fs : FS) (topDir : String) (euid : Nat) (e : String)
    (hadmin : tryTopdirAdminTrashFor fs topDir euid true = .error e) :
    (resolveForFileExternal fs topDir euid =
      match tryTopdirUserTrashFor fs topDir euid true with
      | .error e2 => .error e2
      | .ok v => resolveTail fs v .TopDirUser) ∧
    (∀ td, resolveForFileExternal fs topDir euid = .ok td → td.rootType = .TopDirUser) := by
  have hres : resolveForFileExternal fs topDir euid =
      match tryTopdirUserTrashFor fs topDir euid true with
      | .error e2 => .error e2
      | .ok v => resolveTail fs v .TopDirUser := by
    unfold resolveForFileExternal
    rw [hadmin]
  refine ⟨hres, ?_⟩
  intro td h
  rw [hres] at h
  cases hu : tryTopdirUserTrashFor fs topDir euid true with
  | error e2 =>
    simp only [hu] at h
    exact Except.noConfusion h
  | ok v =>
    simp only [hu] at h
    unfold resolveTail at h
    cases h1 : fs.mustHaveDir (v ++ "/files") with
    | error e3 =>
      simp only [h1] at h
      exact Except.noConfusion h
    | ok u1 =>
      simp only [h1] at h
      cases h2 : fs.mustHaveDir (v ++ "/info") with
      | error e3 =>
        simp only [h2] at h
        exact Except.noConfusion h
      | ok u2 =>
        simp only [h2] at h
        injection h with h
        rw [← h]

theorem resolveForFileExternal_fallback_witness :
    tryTopdirAdminTrashFor
        ⟨fun _ => some false, fun _ => true, fun _ => .ok 0, fun _ => false, fun _ => .ok ()⟩
        "/mnt/usb" 1000 true = .error "top directory trash does not exist" ∧
    resolveForFileExternal
        ⟨fun _ => some false, fun _ => true, fun _ => .ok 0, fun _ => false, fun _ => .ok ()⟩
        "/mnt/usb" 1000 =
      .ok ⟨"/mnt/usb/.Trash-1000", "/mnt/usb/.Trash-1000/files",
        "/mnt/usb/.Trash-1000/info", .TopDirUser⟩ ∧
    (∀ td, resolveForFileExternal
        ⟨fun _ => some false, fun _ => true, fun _ => .ok 0, fun _ => false, fun _ => .ok ()⟩
        "/mnt/usb" 1000 = .ok td → td.rootType = .TopDirUser) := by
  refine ⟨rfl, rfl, (resolveForFileExternal_fallback
    ⟨fun _ => some false, fun _ => true, fun _ => .ok 0, fun _ => false, fun _ => .ok ()⟩
    "/mnt/usb" 1000 "top directory trash does not exist" rfl).2⟩

/-- C4: create_file never overwrites: if the backing path exists at check
time the result is the already-exists error with the filesystem unchanged,
and if it exists at open time (including creation by another process after
the check passed) the exclusive create fails and the existing content is
preserved rather than truncated. -/
theorem createTrashinfoFile_spec (ti : TrashInfo) (fsCheck fsOpen : String → Option String) :
    ((fsCheck ti.path).isSome = true →
      createTrashinfoFile ti fsCheck fsOpen = (.error "info entry already exists", fsOpen)) ∧
    (∀ c, fsOpen ti.path = some c →
      (∃ e, (createTrashinfoFile ti fsCheck fsOpen).1 = .error e) ∧
        (createTrashinfoFile ti fsCheck fsOpen).2 ti.path = some c) := by
  constructor
  · intro h
    unfold createTrashinfoFile
    rw [if_pos h]
  · intro c hc
    unfold createTrashinfoFile
    by_cases h : (fsCheck ti.path).isSome = true
    · rw [if_pos h]
      exact ⟨⟨_, rfl⟩, hc⟩
    · rw [if_neg h, hc]
      exact ⟨⟨_, rfl⟩, hc⟩

theorem createTrashinfoFile_spec_witness :
    ((fun p => if p = "/T/info/a.trashinfo" then some "old" else none)
        ("/T/info/a.trashinfo" : String) = some "old") ∧
    (∃ e, (createTrashinfoFile ⟨"/home/u/a", "2024-01-01T00:00:00", "/T/info/a.trashinfo"⟩
        (fun _ => none)
        (fun p => if p = "/T/info/a.trashinfo" then some "old" else none)).1 = .error e) ∧
    (createTrashinfoFile ⟨"/home/u/a", "2024-01-01T00:00:00", "/T/info/a.trashinfo"⟩
        (fun _ => none)
        (fun p => if p = "/T/info/a.trashinfo" then some "old" else none)).2
      "/T/info/a.trashinfo" = some "old" := by
  have h := (createTrashinfoFile_spec ⟨"/home/u/a", "2024-01-01T00:00:00", "/T/info/a.trashinfo"⟩
    (fun _ => none)
    (fun p => if p = "/T/info/a.trashinfo" then some "old" else none)).2 "old" (by decide)
  exact ⟨by decide, h.1, h.2⟩

/-- C5 counterexample: the readable one-line content consisting of only the
header is malformed (it has no Path or DeletionDate line), yet
TrashInfo::from panics on an out-of-bounds line index instead of returning
an error value. -/
theorem trashinfoFrom_short_input_panics :
    trashinfoFromContent "[Trash Info]".data = none ∧
    ∀ e, trashinfoFromContent "[Trash Info]".data ≠ some (.error e) := by
  have h0 : trashinfoFromContent "[Trash Info]".data = none := by rfl
  exact ⟨h0, fun e h => by rw [h0] at h; exact Option.noConfusion h⟩

/-- C5 amended: parsing returns the invalid-format error whenever the
malformation is visible in the lines that exist — a first line that does
not trim to the header, a present second line not starting with Path=, or
a present third line not starting with DeletionDate= — but when the checks
that can be evaluated pass and fewer than three lines exist (one line with
a valid header, or two lines with a valid header and Path= line), it
panics on an out-of-bounds index instead of returning an error. -/
theorem trashinfoFromContent_amended (content : List Char) :
    (∀ l0 rest, splitNl content = l0 :: rest → trimChars l0 ≠ "[Trash Info]".data →
      trashinfoFromContent content = some (.error "not a valid trashinfo entry")) ∧
    (∀ l0 l1 rest, splitNl content = l0 :: l1 :: rest →
      trimChars l0 = "[Trash Info]".data → List.isPrefixOf "Path=".data l1 = false →
      trashinfoFromContent content = some (.error "not a valid trashinfo entry")) ∧
    (∀ l0 l1 l2 rest, splitNl content = l0 :: l1 :: l2 :: rest →
      trimChars l0 = "[Trash Info]".data → List.isPrefixOf "Path=".data l1 = true →
      List.isPrefixOf "DeletionDate=".data l2 = false →
      trashinfoFromContent content = some (.error "not a valid trashinfo entry")) ∧
    (∀ l0, splitNl content = [l0] → trimChars l0 = "[Trash Info]".data →
      trashinfoFromContent content = none) ∧
    (∀ l0 l1, splitNl content = [l0, l1] → trimChars l0 = "[Trash Info]".data →
      List.isPrefixOf "Path=".data l1 = true →
      trashinfoFromContent content = none) := by
  refine ⟨?_, ?_, ?_, ?_, ?_⟩
  · intro l0 rest hs hne
    unfold trashinfoFromContent
    rw [hs]
    exact if_pos hne
  · intro l0 l1 rest hs h0 hp
    unfold trashinfoFromContent
    rw [hs]
    show (if trimChars l0 ≠ "[Trash Info]".data then _ else _) = _
    rw [if_neg (not_not_intro h0)]
    exact if_pos (by rw [hp]; rfl)
  · intro l0 l1 l2 rest hs h0 hp hd
    unfold trashinfoFromContent
    rw [hs]
    show (if trimChars l0 ≠ "[Trash Info]".data then _ else _) = _
    rw [if_neg (not_not_intro h0)]
    show (if (!"Path=".data.isPrefixOf l1) = true then _ else _) = _
    rw [if_neg (by rw [hp]; exact Bool.false_ne_true)]
    exact if_pos (by rw [hd]; rfl)
  · intro l0 hs h0
    unfold trashinfoFromContent
    rw [hs]
    show (if trimChars l0 ≠ "[Trash Info]".data then _ else _) = _
    rw [if_neg (not_not_intro h0)]
  · intro l0 l1 hs h0 hp
    unfold trashinfoFromContent
    rw [hs]
    show (if trimChars l0 ≠ "[Trash Info]".data then _ else _) = _
    rw [if_neg (not_not_intro h0)]
    show (if (!"Path=".data.isPrefixOf l1) = true then _ else _) = _
    rw [if_neg (by rw [hp]; exact Bool.false_ne_true)]

theorem trashinfoFromContent_amended_witness :
    splitNl "bad".data = ["bad".data] ∧
    trimChars "bad".data ≠ "[Trash Info]".data ∧
    trashinfoFromContent "bad".data = some (.error "not a valid trashinfo entry") := by
  refine ⟨by rfl, by decide, ?_⟩
  exact (trashinfoFromContent_amended "bad".data).1 "bad".data [] (by rfl) (by decide)

theorem foldl_keep_eq_flatten (p : List Char → Bool) (nl : List Char) :
    ∀ (L : List (List Char)) (acc : List Char),
      L.foldl (fun acc e => if p e then acc ++ (e ++ nl) else acc) acc =
        acc ++ ((L.filter p).map (fun e => e ++ nl)).flatten := by
  intro L
  induction L with
  | nil => intro acc; simp
  | cons x L ih =>
    intro acc
    simp only [List.foldl_cons, List.filter_cons]
    by_cases hx : p x = true
    · rw [if_pos hx, hx, ih]
      simp [List.append_assoc]
    · rw [if_neg hx, ih]
      simp only [Bool.not_eq_true] at hx
      rw [hx]
      simp

theorem dirsizesKeep_eq_spec (dec : List Char → Option (List Char))
    (exists_ : String → Bool) (filesDir : String) (newName entry : List Char) :
    dirsizesKeep dec exists_ filesDir newName entry =
      dirsizesKeepSpec dec exists_ filesDir newName entry := by
  unfold dirsizesKeep dirsizesKeepSpec
  cases hw : splitWs entry with
  | nil => simp
  | cons a t =>
    cases t with
    | nil => simp
    | cons b t2 =>
      cases t2 with
      | nil => simp
      | cons c t3 =>
        cases t3 with
        | nil =>
          simp only [List.length_cons, List.length_nil, List.getD]
          cases hd : dec c with
          | none => simp [hd]
          | some f =>
            by_cases hf : newName = f
            · subst hf
              simp [hd]
            · have hfn : (f == newName) = false := beq_eq_false_iff_ne.mpr (Ne.symm hf)
              have hnf : (newName == f) = false := beq_eq_false_iff_ne.mpr hf
              simp [hd, hfn, hnf]
        | cons d t4 => simp

/-- C6: the rewritten directorysizes content equals the existing well-formed
lines (three whitespace-separated fields with a percent-decodable name)
whose decoded name differs from the entry being added and still exists
under the files directory, kept in their original order, followed by
exactly one appended line for the new entry; all other lines are
dropped. -/
theorem addDirsizesContent_spec (dec : List Char → Option (List Char))
    (exists_ : String → Bool) (filesDir : String) (newName : List Char)
    (size mtime : Nat) (encodedDirName : List Char) (existing : List Char) :
    addDirsizesContent dec exists_ filesDir newName size mtime encodedDirName existing =
      (((linesOf existing).filter (dirsizesKeepSpec dec exists_ filesDir newName)).map
        (fun e => e ++ ['\n'])).flatten ++ dirsizesNewLine size mtime encodedDirName := by
  unfold addDirsizesContent
  rw [foldl_keep_eq_flatten]
  rw [List.filter_congr (fun e _ => dirsizesKeep_eq_spec dec exists_ filesDir newName e)]
  simp

/-- C7: the two lifecycle operations treat a directorysizes failure
asymmetrically — trash succeeds whenever the rename succeeded, whatever
the index update returned, while delete_forever propagates a cleanup
failure after both removals succeeded on a directory entry. -/
theorem lifecycleDirsizes_failure_asymmetry (fe : String) (ti : TrashInfo)
    (addRes cleanupRes : Except String Unit) (isDir : Bool) (e : String) :
    (trashOp (some fe) (some ti) (.ok ()) isDir addRes = .ok fe) ∧
    (cleanupRes = .error e →
      deleteForeverOp (some fe) (some ti) (.ok ()) (.ok ()) true cleanupRes = .error e) := by
  constructor
  · rfl
  · intro h
    rw [h]
    rfl

theorem lifecycleDirsizes_failure_asymmetry_witness :
    trashOp (some "/T/files/d") (some ⟨"/d", "2024-01-01T00:00:00", "/T/info/d.trashinfo"⟩)
        (.ok ()) true (.error "no permission") = .ok "/T/files/d" ∧
    deleteForeverOp (some "/T/files/d") (some ⟨"/d", "2024-01-01T00:00:00", "/T/info/d.trashinfo"⟩)
        (.ok ()) (.ok ()) true (.error "no permission") = .error "no permission" := by
  have h := lifecycleDirsizes_failure_asymmetry "/T/files/d"
    ⟨"/d", "2024-01-01T00:00:00", "/T/info/d.trashinfo"⟩
    (.error "no permission") (.error "no permission") true "no permission"
  exact ⟨h.1, h.2 rfl⟩

/-- C9: evaluating the deletion-date comparator on tied dates shows the
defect — a directory as first argument compares Greater regardless of the
second item (sorting it after a tied file in the ascending sort order,
not before it), a file compares Less regardless of the second item, and
two tied directories compare Greater in both argument orders, so the
comparator is not a consistent total order. -/
theorem cmpDeletionDate_tie_bug :
    cmpDeletionDate ⟨"2024-01-01T10:00:00", true⟩ ⟨"2024-01-01T10:00:00", false⟩ = .gt ∧
    cmpDeletionDate ⟨"2024-01-01T10:00:00", false⟩ ⟨"2024-01-01T10:00:00", true⟩ = .lt ∧
    cmpDeletionDate ⟨"2024-01-01T10:00:00", true⟩ ⟨"2024-01-01T10:00:00", true⟩ = .gt ∧
    cmpDeletionDate ⟨"2024-01-01T10:00:00", false⟩ ⟨"2024-01-01T10:00:00", false⟩ = .lt := by
  refine ⟨?_, ?_, ?_, ?_⟩ <;> decide

theorem mem_natChars (n : Nat) : ∀ c ∈ natChars n, ∃ d, d ≤ 9 ∧ c = digitChar d := by
  induction n using Nat.strong_induction_on with
  | _ n ih =>
    by_cases h : n < 10
    · rw [natChars_lt_ten h]
      intro c hc
      rw [List.mem_singleton] at hc
      exact ⟨n, by omega, hc⟩
    · rw [natChars_ge_ten (Nat.le_of_not_lt h)]
      intro c hc
      rw [List.mem_append] at hc
      rcases hc with hc | hc
      · exact ih (n / 10) (Nat.div_lt_self (by omega) (by omega)) c hc
      · rw [List.mem_singleton] at hc
        exact ⟨n % 10, by omega, hc⟩

theorem digitChar_not_tz (d : Nat) (hd : d ≤ 9) :
    digitChar d ≠ '+' ∧ digitChar d ≠ 'z' ∧ digitChar d ≠ 'Z' := by
  interval_cases d <;> exact ⟨by decide, by decide, by decide⟩

theorem mem_pad2 (n : Nat) : ∀ c ∈ pad2 n, ∃ d, d ≤ 9 ∧ c = digitChar d := by
  intro c hc
  unfold pad2 at hc
  rw [List.mem_append] at hc
  rcases hc with hc | hc
  · rw [List.eq_of_mem_replicate hc]
    exact ⟨0, by omega, rfl⟩
  · exact mem_natChars n c hc

theorem mem_pad4 (n : Nat) : ∀ c ∈ pad4 n, ∃ d, d ≤ 9 ∧ c = digitChar d := by
  intro c hc
  unfold pad4 at hc
  rw [List.mem_append] at hc
  rcases hc with hc | hc
  · rw [List.eq_of_mem_replicate hc]
    exact ⟨0, by omega, rfl⟩
  · exact mem_natChars n c hc

theorem mem_renderNaive_not_tz (y mo d h mi s : Nat) :
    ∀ c ∈ renderNaive y mo d h mi s, c ≠ '+' ∧ c ≠ 'z' ∧ c ≠ 'Z' := by
  intro c hc
  unfold renderNaive at hc
  simp only [List.mem_append, List.mem_cons] at hc
  rcases hc with ((((hc | hc | hc) | hc | hc) | hc | hc) | hc | hc) | hc | hc <;>
  first
  | (obtain ⟨dd, hdd, rfl⟩ := mem_pad4 _ _ hc; exact digitChar_not_tz dd hdd)
  | (obtain ⟨dd, hdd, rfl⟩ := mem_pad2 _ _ hc; exact digitChar_not_tz dd hdd)
  | (subst hc; exact ⟨by decide, by decide, by decide⟩)

theorem rfc3339Render_ne_z (y mo d h mi s : Nat) (offMinutes : Int) :
    ∀ c ∈ rfc3339Render y mo d h mi s offMinutes, c ≠ 'z' := by
  intro c hc
  unfold rfc3339Render at hc
  rw [List.mem_append] at hc
  rcases hc with hc | hc
  · exact (mem_renderNaive_not_tz y mo d h mi s c hc).2.1
  · unfold renderOffsetZ at hc
    by_cases hoff : offMinutes = 0
    · rw [if_pos hoff] at hc
      rw [List.mem_singleton] at hc
      subst hc
      decide
    · rw [if_neg hoff] at hc
      rw [List.mem_cons] at hc
      rcases hc with hc | hc
      · subst hc
        by_cases hneg : offMinutes < 0
        · rw [if_pos hneg]; decide
        · rw [if_neg hneg]; decide
      · simp only [List.mem_append, List.mem_cons] at hc
        rcases hc with hc | hc | hc
        · obtain ⟨dd, hdd, rfl⟩ := mem_pad2 _ _ hc
          exact (digitChar_not_tz dd hdd).2.1
        · subst hc; decide
        · obtain ⟨dd, hdd, rfl⟩ := mem_pad2 _ _ hc
          exact (digitChar_not_tz dd hdd).2.1

theorem stripTz_eq_takeWhile (l : List Char) (hz : ∀ c ∈ l, c ≠ 'z') :
    stripTzChars l = l.takeWhile (fun c => (c != '+') && (c != 'Z')) := by
  induction l with
  | nil => rfl
  | cons c t ih =>
    have hcz : c ≠ 'z' := hz c (List.mem_cons_self c t)
    unfold stripTzChars truncAtChar
    by_cases hp : c = '+'
    · subst hp
      simp [List.takeWhile_cons]
    · by_cases hZ : c = 'Z'
      · subst hZ
        simp [List.takeWhile_cons, hp]
      · have h1 : (decide (c ≠ '+')) = true := by simp [hp]
        have h2 : (decide (c ≠ 'z')) = true := by simp [hcz]
        have h3 : (decide (c ≠ 'Z')) = true := by simp [hZ]
        have h4 : ((c != '+') && (c != 'Z')) = true := by
          simp [bne_iff_ne, hp, hZ]
        simp only [List.takeWhile_cons, h1, h2, h3, h4, if_true]
        exact congrArg (c :: ·) (ih (fun x hx => hz x (List.mem_cons_of_mem c hx)))

/-- C8: TrashInfo::new stores the percent-encoded original path, and stores
the deletion date as the chrono RFC 3339 seconds-precision local rendering
truncated at the first plus sign or uppercase Z, so the stored deletion
date contains no plus sign and no Z. -/
theorem trashInfoNew_spec (enc : String → String) (originalPath tiPath : String)
    (y mo d h mi s : Nat) (offMinutes : Int) :
    (trashInfoNew enc originalPath (rfc3339Render y mo d h mi s offMinutes) tiPath).originalPath =
      enc originalPath ∧
    (trashInfoNew enc originalPath
        (rfc3339Render y mo d h mi s offMinutes) tiPath).deletionDate.data =
      (rfc3339Render y mo d h mi s offMinutes).takeWhile (fun c => (c != '+') && (c != 'Z')) ∧
    '+' ∉ (trashInfoNew enc originalPath
        (rfc3339Render y mo d h mi s offMinutes) tiPath).deletionDate.data ∧
    'Z' ∉ (trashInfoNew enc originalPath
        (rfc3339Render y mo d h mi s offMinutes) tiPath).deletionDate.data := by
  have hstrip := stripTz_eq_takeWhile (rfc3339Render y mo d h mi s offMinutes)
    (rfc3339Render_ne_z y mo d h mi s offMinutes)
  have hdd : (trashInfoNew enc originalPath
      (rfc3339Render y mo d h mi s offMinutes) tiPath).deletionDate.data =
      stripTzChars (rfc3339Render y mo d h mi s offMinutes) := rfl
  refine ⟨rfl, by rw [hdd, hstrip], ?_, ?_⟩
  · intro hmem
    rw [hdd, hstrip] at hmem
    have := List.mem_takeWhile_imp hmem
    simp at this
  · intro hmem
    rw [hdd, hstrip] at hmem
    have := List.mem_takeWhile_imp hmem
    simp at this

theorem dval_digitChar_mod (a : Nat) : dval (digitChar (a % 10)) = a % 10 := by
  have hlt : a % 10 < 10 := Nat.mod_lt _ (by omega)
  generalize a % 10 = k at hlt ⊢
  interval_cases k <;> decide

theorem isDig_digitChar_mod (a : Nat) : isDig (digitChar (a % 10)) = true := by
  have hlt : a % 10 < 10 := Nat.mod_lt _ (by omega)
  generalize a % 10 = k at hlt ⊢
  interval_cases k <;> decide

theorem natChars_two_digits {n : Nat} (h1 : 10 ≤ n) (h2 : n ≤ 99) :
    natChars n = [digitChar (n / 10 % 10), digitChar (n % 10)] := by
  rw [natChars_ge_ten h1, natChars_lt_ten (by omega : n / 10 < 10)]
  have : n / 10 % 10 = n / 10 := Nat.mod_eq_of_lt (by omega)
  rw [this]
  rfl

theorem pad2_eq {n : Nat} (h : n ≤ 99) :
    pad2 n = [digitChar (n / 10 % 10), digitChar (n % 10)] := by
  unfold pad2
  by_cases hn : n < 10
  · rw [natChars_lt_ten hn]
    have h1 : n / 10 % 10 = 0 := by omega
    have h2 : n % 10 = n := by omega
    rw [h1, h2]
    rfl
  · rw [natChars_two_digits (by omega) h]
    rfl

theorem natChars_three_digits {n : Nat} (h1 : 100 ≤ n) (h2 : n ≤ 999) :
    natChars n = [digitChar (n / 100 % 10), digitChar (n / 10 % 10), digitChar (n % 10)] := by
  rw [natChars_ge_ten (by omega), natChars_two_digits (by omega) (by omega)]
  have e1 : n / 10 / 10 % 10 = n / 100 % 10 := by
    rw [Nat.div_div_eq_div_mul]
  have e2 : n / 10 % 10 = n / 10 % 10 := rfl
  rw [e1]
  rfl

theorem natChars_four_digits {n : Nat} (h1 : 1000 ≤ n) (h2 : n ≤ 9999) :
    natChars n = [digitChar (n / 1000 % 10), digitChar (n / 100 % 10),
      digitChar (n / 10 % 10), digitChar (n % 10)] := by
  rw [natChars_ge_ten (by omega), natChars_three_digits (by omega) (by omega)]
  have e1 : n / 10 / 100 % 10 = n / 1000 % 10 := by
    rw [Nat.div_div_eq_div_mul]
  have e2 : n / 10 / 10 % 10 = n / 100 % 10 := by
    rw [Nat.div_div_eq_div_mul]
  rw [e1, e2]
  rfl

theorem pad4_eq {n : Nat} (h : n ≤ 9999) :
    pad4 n = [digitChar (n / 1000 % 10), digitChar (n / 100 % 10),
      digitChar (n / 10 % 10), digitChar (n % 10)] := by
  unfold pad4
  by_cases h1 : n < 10
  · rw [natChars_lt_ten h1,
      (by omega : n / 1000 % 10 = 0), (by omega : n / 100 % 10 = 0),
      (by omega : n / 10 % 10 = 0), (by omega : n % 10 = n)]
    rfl
  · by_cases h2 : n < 100
    · rw [natChars_two_digits (by omega) (by omega),
        (by omega : n / 1000 % 10 = 0), (by omega : n / 100 % 10 = 0)]
      rfl
    · by_cases h3 : n < 1000
      · rw [natChars_three_digits (by omega) (by omega),
          (by omega : n / 1000 % 10 = 0)]
        rfl
      · rw [natChars_four_digits (by omega) h]
        rfl

theorem daysInMonth_le (y mo : Nat) : daysInMonth y mo ≤ 31 := by
  unfold daysInMonth
  split_ifs <;> omega

theorem truncAtChar_id (l : List Char) (c : Char) (h : ∀ x ∈ l, x ≠ c) :
    truncAtChar l c = l := by
  unfold truncAtChar
  exact List.takeWhile_eq_self_iff.mpr (fun x hx => by simp [h x hx])

theorem stripTz_id (l : List Char) (h : ∀ c ∈ l, c ≠ '+' ∧ c ≠ 'z' ∧ c ≠ 'Z') :
    stripTzChars l = l := by
  unfold stripTzChars
  rw [truncAtChar_id l '+' (fun x hx => (h x hx).1),
    truncAtChar_id l 'z' (fun x hx => (h x hx).2.1),
    truncAtChar_id l 'Z' (fun x hx => (h x hx).2.2)]

theorem renderNaive_length {y mo d h mi s : Nat} (hy : y ≤ 9999) (hmo : mo ≤ 99)
    (hd : d ≤ 99) (hh : h ≤ 99) (hmi : mi ≤ 99) (hs : s ≤ 99) :
    (renderNaive y mo d h mi s).length = 19 := by
  unfold renderNaive
  rw [pad4_eq hy, pad2_eq hmo, pad2_eq hd, pad2_eq hh, pad2_eq hmi, pad2_eq hs]
  rfl

theorem validRfc3339_no_dash_tail (l : List Char) (h : validRfc3339 l = true) :
    '-' ∉ l.drop 20 := by
  unfold validRfc3339 at h
  split at h
  · rename_i y1 y2 y3 y4 sepa m1 m2 sepb d1 d2 tsep h1 h2 sepc n1 n2 sepd x1 x2 sg o1 o2 sepe p1 p2
    intro hmem
    have hmem5 : '-' ∈ [o1, o2, sepe, p1, p2] := hmem
    simp only [Bool.and_eq_true] at h
    simp only [List.mem_cons, List.not_mem_nil, or_false] at hmem5
    rcases hmem5 with rfl | rfl | rfl | rfl | rfl <;> simp [isDig] at h
  · exact absurd h (by simp)

theorem validRfc3339_canonical (y mo d h mi s oh om : Nat)
    (hy : y ≤ 9999) (hmo1 : 1 ≤ mo) (hmo2 : mo ≤ 12) (hd1 : 1 ≤ d)
    (hd2 : d ≤ daysInMonth y mo) (hh : h ≤ 23) (hmi : mi ≤ 59) (hs : s ≤ 59)
    (hoh : oh ≤ 23) (hom : om ≤ 59) (hoff : oh * 3600 + om * 60 < 86400) :
    validRfc3339 (renderNaive y mo d h mi s ++ '+' :: (pad2 oh ++ ':' :: pad2 om)) = true := by
  have hd99 : d ≤ 99 := by
    have := daysInMonth_le y mo
    omega
  unfold renderNaive
  rw [pad4_eq hy, pad2_eq (by omega : mo ≤ 99), pad2_eq hd99,
    pad2_eq (by omega : h ≤ 99), pad2_eq (by omega : mi ≤ 99),
    pad2_eq (by omega : s ≤ 99), pad2_eq (by omega : oh ≤ 99),
    pad2_eq (by omega : om ≤ 99)]
  simp only [List.cons_append, List.nil_append, List.append_assoc]
  unfold validRfc3339
  simp only [isDig_digitChar_mod, dval_digitChar_mod, Bool.and_eq_true, Bool.true_and,
    Bool.and_true, decide_eq_true_eq, beq_self_eq_true, Bool.or_eq_true]
  have hyE : 1000 * (y / 1000 % 10) + 100 * (y / 100 % 10) + 10 * (y / 10 % 10) + y % 10 = y := by
    omega
  have hmoE : 10 * (mo / 10 % 10) + mo % 10 = mo := by omega
  have hdE : 10 * (d / 10 % 10) + d % 10 = d := by omega
  have hhE : 10 * (h / 10 % 10) + h % 10 = h := by omega
  have hmiE : 10 * (mi / 10 % 10) + mi % 10 = mi := by omega
  have hsE : 10 * (s / 10 % 10) + s % 10 = s := by omega
  have hohE : 10 * (oh / 10 % 10) + oh % 10 = oh := by omega
  have homE : 10 * (om / 10 % 10) + om % 10 = om := by omega
  rw [hyE, hmoE, hdE, hhE, hmiE, hsE, hohE, homE]
  repeat' apply And.intro
  all_goals first
    | rfl
    | omega
    | exact hd2
    | exact Or.inl trivial

theorem fmt2i_ofNat (a : Nat) : fmt2i ((a : Int)) = pad2 a := by
  unfold fmt2i
  rw [if_neg (by omega : ¬ ((a : Int) < 0))]
  rw [Int.toNat_ofNat]

theorem fmt2i_negOfNat (j : Nat) (hj : 1 ≤ j) : fmt2i (-(j : Int)) = '-' :: natChars j := by
  unfold fmt2i
  rw [if_pos (by omega : -(j : Int) < 0)]
  congr 1
  simp

/-- C10: get_deletion_date appends the machine's current local offset as a
plus sign with 02-width hours and 02-width minutes to the stored naive
timestamp and unwraps the parse; for a whole-minute machine offset of
magnitude below one day and any valid stored timestamp, the call returns a
parsed datetime exactly when the offset is non-negative, and on a machine
west of UTC the constructed string is malformed so the unwrap panics. -/
theorem getDeletionDate_offset_sign (y mo d h mi s : Nat) (offsetSecs : Int)
    (hy : y ≤ 9999) (hmo1 : 1 ≤ mo) (hmo2 : mo ≤ 12) (hd1 : 1 ≤ d)
    (hd2 : d ≤ daysInMonth y mo) (hh : h ≤ 23) (hmi : mi ≤ 59) (hs : s ≤ 59)
    (hdvd : (60 : Int) ∣ offsetSecs) (habs : offsetSecs.natAbs < 86400) :
    (0 ≤ offsetSecs →
      (getDeletionDate (renderNaive y mo d h mi s) offsetSecs).isSome = true) ∧
    (offsetSecs < 0 →
      getDeletionDate (renderNaive y mo d h mi s) offsetSecs = none) := by
  obtain ⟨k, rfl⟩ := hdvd
  have hmins : Int.tdiv (60 * k) 60 = k := Int.mul_tdiv_cancel_left k (by omega)
  have hstrip : stripTzChars (renderNaive y mo d h mi s) = renderNaive y mo d h mi s :=
    stripTz_id _ (mem_renderNaive_not_tz y mo d h mi s)
  have hd99 : d ≤ 99 := by
    have := daysInMonth_le y mo
    omega
  have hlen : (renderNaive y mo d h mi s).length = 19 :=
    renderNaive_length hy (by omega) hd99 (by omega) (by omega) (by omega)
  have hdrop : ∀ X : List Char, ((renderNaive y mo d h mi s) ++ '+' :: X).drop 20 = X := by
    intro X
    have h20 : 20 = (renderNaive y mo d h mi s).length + 1 := by omega
    rw [h20, List.drop_append]
    rfl
  constructor
  · intro hpos
    have hk0 : 0 ≤ k := by omega
    obtain ⟨j, rfl⟩ := Int.eq_ofNat_of_zero_le hk0
    have habs2 : (60 * ((j : Nat) : Int)).natAbs = 60 * j := by
      rw [Int.natAbs_mul]
      rfl
    rw [habs2] at habs
    have hH : Int.tdiv ((j : Nat) : Int) 60 = (((j / 60 : Nat)) : Int) := rfl
    have hM : Int.tmod ((j : Nat) : Int) 60 = (((j % 60 : Nat)) : Int) := rfl
    have hstr : getDeletionDateStr (renderNaive y mo d h mi s) (60 * ((j : Nat) : Int)) =
        renderNaive y mo d h mi s ++ '+' :: (pad2 (j / 60) ++ ':' :: pad2 (j % 60)) := by
      unfold getDeletionDateStr
      rw [hstrip, hmins, hH, hM, fmt2i_ofNat, fmt2i_ofNat]
    have hvalid := validRfc3339_canonical y mo d h mi s (j / 60) (j % 60) hy hmo1 hmo2
      hd1 hd2 hh hmi hs (by omega) (by omega) (by omega)
    unfold getDeletionDate
    rw [hstr, if_pos hvalid]
    rfl
  · intro hneg
    have hk0 : k < 0 := by omega
    obtain ⟨n, rfl⟩ : ∃ n, k = Int.negSucc n := by
      cases k with
      | ofNat m => exact absurd hk0 (Int.not_lt.mpr (Int.ofNat_nonneg m))
      | negSucc n => exact ⟨n, rfl⟩
    have habs2 : (60 * Int.negSucc n).natAbs = 60 * (n + 1) := by
      rw [Int.natAbs_mul]
      rfl
    rw [habs2] at habs
    have hH : Int.tdiv (Int.negSucc n) 60 = -((((n + 1) / 60 : Nat)) : Int) := rfl
    have hM : Int.tmod (Int.negSucc n) 60 = -((((n + 1) % 60 : Nat)) : Int) := rfl
    have hdash : '-' ∈
        (getDeletionDateStr (renderNaive y mo d h mi s) (60 * Int.negSucc n)).drop 20 := by
      unfold getDeletionDateStr
      rw [hstrip, hmins, hH, hM, hdrop]
      by_cases hbig : 60 ≤ n + 1
      · rw [fmt2i_negOfNat ((n + 1) / 60) (by omega)]
        exact List.mem_append_left _ (List.mem_cons_self _ _)
      · have hz : (n + 1) / 60 = 0 := by omega
        have hm1 : 1 ≤ (n + 1) % 60 := by omega
        rw [hz]
        have h0 : -(((0 : Nat)) : Int) = (((0 : Nat)) : Int) := rfl
        rw [h0, fmt2i_ofNat, fmt2i_negOfNat ((n + 1) % 60) hm1]
        refine List.mem_append_right _ ?_
        exact List.mem_cons_of_mem _ (List.mem_cons_self _ _)
    have hnv : ¬ validRfc3339
        (getDeletionDateStr (renderNaive y mo d h mi s) (60 * Int.negSucc n)) = true :=
      fun hv => validRfc3339_no_dash_tail _ hv hdash
    unfold getDeletionDate
    rw [if_neg hnv]

theorem getDeletionDate_offset_sign_witness :
    getDeletionDate (renderNaive 2024 1 15 10 30 0) (-18000) = none ∧
    (getDeletionDate (renderNaive 2024 1 15 10 30 0) 19800).isSome = true := by
  constructor
  · exact (getDeletionDate_offset_sign 2024 1 15 10 30 0 (-18000) (by decide) (by decide)
      (by decide) (by decide) (by decide) (by decide) (by decide) (by decide)
      ⟨-300, by decide⟩ (by decide)).2 (by decide)
  · exact (getDeletionDate_offset_sign 2024 1 15 10 30 0 19800 (by decide) (by decide)
      (by decide) (by decide) (by decide) (by decide) (by decide) (by decide)
      ⟨330, by decide⟩ (by decide)).1 (by decide)

theorem trashInfoNew_spec_witness :
    '+' ∉ (trashInfoNew (fun p => p) "/home/u/a"
      (rfc3339Render 2024 1 15 10 30 0 330) "/T/info/a.trashinfo").deletionDate.data ∧
    'Z' ∉ (trashInfoNew (fun p => p) "/home/u/a"
      (rfc3339Render 2024 1 15 10 30 0 330) "/T/info/a.trashinfo").deletionDate.data :=
  ⟨(trashInfoNew_spec (fun p => p) "/home/u/a" "/T/info/a.trashinfo" 2024 1 15 10 30 0 330).2.2.1,
   (trashInfoNew_spec (fun p => p) "/home/u/a" "/T/info/a.trashinfo" 2024 1 15 10 30 0 330).2.2.2⟩
